/-
Verification of the MPI-SWS/RedQueen core (src/utils.py) over an exact
shallow embedding: the rank tracker, the utility-integral aggregator, the
oracle dynamic program, and the bisection calibration loop.  Machine floats
are modelled by the rationals; the ids of events, sources and sinks are
naturals.
-/
import Mathlib

namespace RedQueen

/-- One record of the event log: a post by `src_id` appearing in follower
`sink_id`'s feed at time `t` (the dataframe columns consumed by utils.py). -/
structure Event where
  event_id : Nat
  t : ℚ
  src_id : Nat
  sink_id : Nat
deriving DecidableEq

/-- The time column `df.t` of an event log. -/
def times (df : List Event) : List ℚ := df.map (fun e => e.t)

/-- np.diff: successive differences of a numeric array. -/
def npDiff (x : List ℚ) : List ℚ := List.zipWith (fun a b => b - a) x x.tail

/-- is_sorted (utils.py line 27-29): `np.all(np.diff(x) >= 0)`. -/
def is_sorted (x : List ℚ) : Bool := (npDiff x).all (fun d => decide (0 ≤ d))

/-- An id column viewed as the numeric array numpy sees. -/
def natsToRat (xs : List Nat) : List ℚ := xs.map (fun (v : Nat) => (v : ℚ))

/-- Sorted distinct values of an id column (python `sorted(col.unique())`). -/
def uniqueSortedNat (xs : List Nat) : List Nat :=
  List.insertionSort (fun a b => a ≤ b) xs.dedup

/-- Distinct values of an already sorted column, in order: the index that
`pivot_table` builds from the `t` column of a time-sorted log. -/
def dedupSorted : List ℚ → List ℚ
  | [] => []
  | [t] => [t]
  | t :: t' :: ts => if t = t' then dedupSorted (t' :: ts) else t :: dedupSorted (t' :: ts)

/-! ## Rank tracker (utils.py lines 34-52) -/

/-- `np.where(x == src_id, range(1, len(x) + 1), 0)` (utils.py line 42):
the 1-based position at the positions where the source posted, 0 elsewhere. -/
def whereSrc (src : Nat) (xs : List Nat) : List Nat :=
  List.zipWith (fun x k => if x = src then k else 0) xs (List.range' 1 xs.length)

/-- `np.maximum.accumulate`: the running maximum of an array (the accumulator
starts at 0, which is below every entry of a nonnegative array). -/
def maxAccum (acc : Nat) : List Nat → List Nat
  | [] => []
  | y :: ys => max acc y :: maxAccum (max acc y) ys

/-- `steps_to` (utils.py lines 39-42): 1-based positions minus the running
maximum of the marked positions at which the source posted. -/
def steps_to (src : Nat) (xs : List Nat) : List Int :=
  List.zipWith (fun (k : Nat) (m : Nat) => (k : Int) - (m : Int))
    (List.range' 1 xs.length) (maxAccum 0 (whereSrc src xs))

/-- The 1-based position of the source's most recent post in a stream
prefix, 0 if the source has not posted yet. -/
def lastSrcPos (src : Nat) (xs : List Nat) : Nat := (whereSrc src xs).foldl max 0

/-- Follower σ's stream: the events of the log delivered to sink σ
(`df.groupby('sink_id')` keeps the within-group order of a sorted log). -/
def streamOf (df : List Event) (σ : Nat) : List Event :=
  df.filter (fun e => decide (e.sink_id = σ))

/-- The `src_id` column of follower σ's stream. -/
def streamSrcs (df : List Event) (σ : Nat) : List Nat :=
  (streamOf df σ).map (fun e => e.src_id)

/-- The rank column that `groupby('sink_id').src_id.transform(steps_to)`
assigns inside follower σ's stream. -/
def streamRanks (df : List Event) (src σ : Nat) : List Int :=
  steps_to src (streamSrcs df σ)

/-- One cell of the pivot table: the mean (pivot_table's default aggregation)
of the ranks of σ's events at time t, none when σ has no event at t (NaN). -/
def pivotCell (df : List Event) (src σ : Nat) (t : ℚ) : Option ℚ :=
  let rs := (((streamOf df σ).zip (streamRanks df src σ)).filter
      (fun p => decide (p.1.t = t))).map (fun p => ((p.2 : ℚ)))
  if rs.length = 0 then none else some (rs.sum / (rs.length : ℚ))

/-- `fillna(method='ffill')` down one column: a missing cell takes the last
value seen above it, and stays missing before the first observation. -/
def ffillAux (prev : Option ℚ) : List (Option ℚ) → List (Option ℚ)
  | [] => []
  | none :: cs => prev :: ffillAux prev cs
  | some v :: cs => some v :: ffillAux (some v) cs

/-- The pivot index: the distinct observed timestamps of the log. -/
def grid (df : List Event) : List ℚ := dedupSorted (times df)

/-- Follower σ's forward-filled rank column over the grid. -/
def rankTraj (df : List Event) (src σ : Nat) : List (Option ℚ) :=
  ffillAux none ((grid df).map (fun t => pivotCell df src σ t))

/-- rank_of_src_in_df (utils.py lines 34-52) with `fill=True, with_time=True`:
asserts that the log is sorted by time, then pivots the per-stream ranks into
a time × sink table (columns listed with their sink id, sorted) and
forward-fills each column. -/
def rank_of_src_in_df (df : List Event) (src : Nat) :
    Option (List (Nat × List (Option ℚ))) :=
  if is_sorted (times df) = true then
    some ((uniqueSortedNat (df.map (fun e => e.sink_id))).map
      (fun σ => (σ, rankTraj df src σ)))
  else none

/-- The concrete two-follower scenario of the spec: source 0 posts at t = 0
and t = 5 (one record per follower), the competitor (source 9) posts to
follower 1 at t = 1, 2, 3 and to follower 2 at t = 4. -/
def exDf : List Event :=
  [⟨0, 0, 0, 1⟩, ⟨0, 0, 0, 2⟩,
   ⟨1, 1, 9, 1⟩, ⟨2, 2, 9, 1⟩, ⟨3, 3, 9, 1⟩,
   ⟨4, 4, 9, 2⟩,
   ⟨5, 5, 0, 1⟩, ⟨5, 5, 0, 2⟩]

/-! ## Metric aggregator: the utility integral (utils.py lines 55-76)

numpy's float `sqrt` is modelled by an arbitrary function parameter `sq`;
every claim about `u_int_opt` applies `sq` to the same arguments on both
sides of the comparison, so nothing depends on its values. -/

/-- The default follower set of `u_int_opt` (utils.py line 68): the sorted
distinct sinks that received at least one post from the source itself. -/
def followersOfSrc (df : List Event) (src : Nat) : List Nat :=
  uniqueSortedNat ((df.filter (fun e => decide (e.src_id = src))).map (fun e => e.sink_id))

/-- `np.sqrt(q_vec / s)` with `sq` standing for the square root. -/
def sqrtWeights (sq : ℚ → ℚ) (q_vec : List ℚ) (s : ℚ) : List ℚ :=
  q_vec.map (fun q => sq (q / s))

/-- Row i of the rank table restricted to the columns `fids`, in their given
order; a cell that is missing even after the forward fill reads 0 (it is NaN
in the source, and the claims only quantify over logs without such cells). -/
def rowVals (df : List Event) (src : Nat) (fids : List Nat) (i : Nat) : List ℚ :=
  fids.map (fun σ => (((rankTraj df src σ).getD i none).getD 0))

/-- Vector dot product (`np.dot` of two equal-length vectors). -/
def dotQ (a b : List ℚ) : ℚ := (List.zipWith (fun x y => x * y) a b).sum

/-- `r_t[follower_ids].values.dot(np.sqrt(q_vec / s))` (utils.py line 73). -/
def u_values (sq : ℚ → ℚ) (df : List Event) (src : Nat) (fids : List Nat)
    (q_vec : List ℚ) (s : ℚ) : List ℚ :=
  (List.range (grid df).length).map (fun i => dotQ (rowVals df src fids i) (sqrtWeights sq q_vec s))

/-- `np.diff(np.concatenate([r_t.index.values, [end_time]]))` (line 74). -/
def u_dt (df : List Event) (end_time : ℚ) : List ℚ := npDiff (grid df ++ [end_time])

/-- The sum `np.sum(u_values * u_dt)` (utils.py line 76). -/
def uIntCore (sq : ℚ → ℚ) (df : List Event) (src : Nat) (end_time : ℚ)
    (q_vec : List ℚ) (s : ℚ) (fids : List Nat) : ℚ :=
  (List.zipWith (fun v d => v * d) (u_values sq df src fids q_vec s) (u_dt df end_time)).sum

/-- u_int_opt (utils.py lines 55-76).  An explicitly supplied follower list
is asserted sorted (line 70) before the rank table's own sortedness assert
runs (line 37, inside `rank_of_src_in_df`); a missing follower list is
replaced by the source's own followers (line 68).  `none` models a raised
assertion error. -/
def u_int_opt (sq : ℚ → ℚ) (df : List Event) (src : Nat) (end_time : ℚ)
    (q_vec : List ℚ) (s : ℚ) (follower_ids : Option (List Nat)) : Option ℚ :=
  match follower_ids with
  | some fids =>
    if is_sorted (natsToRat fids) = true then
      if is_sorted (times df) = true then
        some (uIntCore sq df src end_time q_vec s fids)
      else none
    else none
  | none =>
    if is_sorted (times df) = true then
      some (uIntCore sq df src end_time q_vec s (followersOfSrc df src))
    else none

/-- Spec-side restatement of the utility integral, written from the spec's
words: the Riemann sum, over the distinct observed timestamps indexed by i,
of the rank row at timestamp i dotted with sqrt(q_vec / s), times the width
from timestamp i to the next observation (the last width reaching
`end_time`). -/
def u_int_spec (sq : ℚ → ℚ) (df : List Event) (src : Nat) (end_time : ℚ)
    (q_vec : List ℚ) (s : ℚ) (fids : List Nat) : ℚ :=
  ((List.range (grid df).length).map (fun i =>
    dotQ (rowVals df src fids i) (sqrtWeights sq q_vec s) *
      ((if i + 1 < (grid df).length then (grid df).getD (i + 1) 0 else end_time) -
        (grid df).getD i 0))).sum

/-! ## Oracle scheduler (utils.py lines 153-217) -/

/-- `df.groupby('event_id').t.mean()`: the mean time of each event id, the
ids listed in sorted order (pandas groupby sorts its keys). -/
def oracleEventTimes (df : List Event) : List ℚ :=
  (uniqueSortedNat (df.map (fun e => e.event_id))).map (fun eid =>
    let g := (df.filter (fun e => decide (e.event_id = eid))).map (fun e => e.t)
    g.sum / (g.length : ℚ))

/-- `np.diff(np.concatenate([[0.0], [0.0], event_times, [end_time]]))`
(utils.py line 181), read at index k (0 beyond the array). -/
def wFn (ts : List ℚ) (end_time : ℚ) : Nat → ℚ := fun k =>
  (npDiff ([0, 0] ++ ts ++ [end_time])).getD k 0

/-- The terminal column `J[:, n+1] = np.arange(n+1)**2 / 2` (line 187). -/
def termCol (n : Nat) : List ℚ :=
  (List.range (n + 1)).map (fun (r : Nat) => ((r : ℚ)) ^ 2 / 2)

/-- One column of the backward fill (lines 189-194): for
`r in range(min(k+1, n))` the recurrence value, every other row keeping the
0 of the `np.zeros` initialization. -/
def fillCol (n : Nat) (q s wk1 : ℚ) (k : Nat) (next : List ℚ) : List ℚ :=
  (List.range (n + 1)).map (fun r =>
    if r < min (k + 1) n then
      min (s / 2 + next.getD 0 0) (q / 2 * wk1 * ((r : ℚ) + 1) ^ 2 + next.getD (r + 1) 0)
    else 0)

/-- The columns of `J`, built backwards: `JcolsAux j` is column `n+1-j`. -/
def JcolsAux (n : Nat) (q s : ℚ) (w : Nat → ℚ) : Nat → List ℚ
  | 0 => termCol n
  | j + 1 => fillCol n q s (w (n - j + 1)) (n - j) (JcolsAux n q s w j)

/-- Column k of the filled table `J` (meaningful for `k ≤ n+1`). -/
def Jcol (ts : List ℚ) (end_time q s : ℚ) (k : Nat) : List ℚ :=
  JcolsAux ts.length q s (wFn ts end_time) (ts.length + 1 - k)

/-- Entry `J[r, k]` of the filled table. -/
def Jfun (ts : List ℚ) (end_time q s : ℚ) : Nat → Nat → ℚ := fun r k =>
  (Jcol ts end_time q s k).getD r 0

/-- The forward reconstruction (lines 199-207): from event index k with
current rank r and the given fuel (`n - k` steps remain), the recorded pairs
`(u_star[k], oracle_ranks[k+1])`; a post happens only on a strictly cheaper
post branch. -/
def fwdSteps (q s : ℚ) (w : Nat → ℚ) (J : Nat → Nat → ℚ) : Nat → Nat → Nat → List (Nat × Nat)
  | 0, _, _ => []
  | m + 1, k, r =>
    if s / 2 + J 0 (k + 1) < q / 2 * w (k + 1) * ((r : ℚ) + 1) ^ 2 + J (r + 1) (k + 1) then
      (1, 0) :: fwdSteps q s w J m (k + 1) 0
    else
      (0, r + 1) :: fwdSteps q s w J m (k + 1) (r + 1)

/-- The data of the returned `oracle_df` plus the returned cost `J[0, 0]`. -/
structure OracleOut where
  ranks : List Nat
  events : List Nat
  cost : ℚ
deriving DecidableEq

/-- The failures of `oracle_ranking`: a follower set of size ≠ 1 (line 166),
an unsorted time column (line 173), and the `n > 1e6` guard (line 177, which
in the source logs and returns an empty list instead of a result). -/
inductive OracleError where
  | unsupportedConfiguration
  | orderingError
  | scaleLimit
deriving DecidableEq

/-- oracle_ranking (utils.py lines 153-217) with the default arguments
(no omitted sources, follower set taken from the log).  `q_vec` enters the
arithmetic as the scalar weight of the single follower. -/
def oracle_ranking (df : List Event) (end_time : ℚ) (q_vec : List ℚ) (s : ℚ) :
    Except OracleError OracleOut :=
  let follower_ids := uniqueSortedNat (df.map (fun e => e.sink_id))
  if follower_ids.length = 1 then
    if is_sorted (times df) = true then
      let ts := oracleEventTimes df
      if ts.length > 1000000 then .error .scaleLimit
      else
        let q := q_vec.getD 0 0
        let steps := fwdSteps q s (wFn ts end_time) (Jfun ts end_time q s) ts.length 0 0
        .ok ⟨0 :: steps.map (fun p => p.2), steps.map (fun p => p.1) ++ [0],
          Jfun ts end_time q s 0 0⟩
    else .error .orderingError
  else .error .unsupportedConfiguration

/-- All 0/1 decision patterns of a given length. -/
def patterns : Nat → List (List Bool)
  | 0 => [[]]
  | n + 1 => (patterns n).map (fun u => true :: u) ++ (patterns n).map (fun u => false :: u)

/-- Total cost of one pattern of post decisions, one taken immediately
before each competing event, starting at event index k with rank r: a post
costs s/2 and resets the rank, waiting accrues the quadratic visibility
penalty of the elapsed interval; after the last decision the final interval
is waited out and the terminal squared-rank penalty is paid. -/
def pathCost (q s : ℚ) (w : Nat → ℚ) : List Bool → Nat → Nat → ℚ
  | [], k, r => q / 2 * w (k + 1) * ((r : ℚ) + 1) ^ 2 + ((r : ℚ) + 1) ^ 2 / 2
  | u :: us, k, r =>
    if u then s / 2 + pathCost q s w us (k + 1) 0
    else q / 2 * w (k + 1) * ((r : ℚ) + 1) ^ 2 + pathCost q s w us (k + 1) (r + 1)

/-- Total cost of a pattern that also decides before the final interval
(one decision per column of the dynamic program), with the terminal
squared-rank penalty paid on the reached rank. -/
def pathCostFull (q s : ℚ) (w : Nat → ℚ) : List Bool → Nat → Nat → ℚ
  | [], _, r => ((r : ℚ)) ^ 2 / 2
  | u :: us, k, r =>
    if u then s / 2 + pathCostFull q s w us (k + 1) 0
    else q / 2 * w (k + 1) * ((r : ℚ) + 1) ^ 2 + pathCostFull q s w us (k + 1) (r + 1)

/-- Minimum of a list of costs (0 for the empty list, never hit below). -/
def minCost : List ℚ → ℚ
  | [] => 0
  | c :: cs => cs.foldl min c

/-- Brute-force minimum over the 2^n patterns with one decision per
competing event. -/
def bruteMin (ts : List ℚ) (end_time q s : ℚ) : ℚ :=
  minCost ((patterns ts.length).map (fun u => pathCost q s (wFn ts end_time) u 0 0))

/-- Brute-force minimum over the 2^(n+1) patterns with one decision per
column of the dynamic program. -/
def bruteMinFull (ts : List ℚ) (end_time q s : ℚ) : ℚ :=
  minCost ((patterns (ts.length + 1)).map (fun u => pathCostFull q s (wFn ts end_time) u 0 0))

/-! ## Calibration loop (utils.py lines 232-288)

`get_oracle_df` runs the external wall simulation and the oracle on its
event log; the pipeline from the tried parameter s to the achieved pair
(event count, cost) is abstracted as a function `run`, per the spec's
external-interface section. -/

/-- The dictionary returned by find_opt_oracle: the tried s, the oracle cost
and the achieved event count `oracle_df.events.sum()` of the returned run. -/
structure FindRes where
  s : ℚ
  cost : ℚ
  events : ℚ
deriving DecidableEq

/-- The stopping test of the bisection loop (utils.py lines 277-279). -/
def stopCond (opt target tol : ℚ) : Prop :=
  |opt - target| / target < tol ∨ opt = ((⌈target⌉ : ℤ) : ℚ) ∨ opt = ((⌊target⌋ : ℤ) : ℚ)

instance (opt target tol : ℚ) : Decidable (stopCond opt target tol) := by
  unfold stopCond; infer_instance

/-- The bisection loop (utils.py lines 268-288), with explicit fuel for the
source's unbounded `while True`. -/
def bisectLoop (run : ℚ → ℚ × ℚ) (target tol : ℚ) : Nat → ℚ → ℚ → Option FindRes
  | 0, _, _ => none
  | fuel + 1, s_lo, s_hi =>
    let s_try := (s_lo + s_hi) / 2
    let r := run s_try
    if stopCond r.1 target tol then some ⟨s_try, r.2, r.1⟩
    else if r.1 < target then bisectLoop run target tol fuel s_lo s_try
    else bisectLoop run target tol fuel s_try s_hi

/-- The doubling bracket search (utils.py lines 242-251). -/
def doubleLoop (run : ℚ → ℚ × ℚ) (target : ℚ) : Nat → ℚ → Option (ℚ × ℚ)
  | 0, _ => none
  | fuel + 1, s_init =>
    if (run (s_init * 2)).1 < target then some (s_init, s_init * 2)
    else doubleLoop run target fuel (s_init * 2)

/-- The halving bracket search (utils.py lines 253-263). -/
def halveLoop (run : ℚ → ℚ × ℚ) (target : ℚ) : Nat → ℚ → Option (ℚ × ℚ)
  | 0, _ => none
  | fuel + 1, s_init =>
    if (run (s_init / 2)).1 > target then some (s_init / 2, s_init)
    else halveLoop run target fuel (s_init / 2)

/-- find_opt_oracle (utils.py lines 232-288): bracket from s = 1 by
doubling or halving, then bisect.  When the initial count already equals the
target neither bracketing loop runs and the initial bracket (1/2, 2) of
line 234 survives into the bisection. -/
def find_opt_oracle (run : ℚ → ℚ × ℚ) (target tol : ℚ) (fuel : Nat) : Option FindRes :=
  let ne := (run 1).1
  let bracket :=
    if ne > target then doubleLoop run target fuel 1
    else if ne < target then halveLoop run target fuel 1
    else some (1 / 2, 2)
  match bracket with
  | none => none
  | some (lo, hi) => bisectLoop run target tol fuel lo hi

/-! ## Concrete inputs used by the claims -/

/-- A log with one competing event at t = 1 towards the single follower 7. -/
def c1Df : List Event := [⟨0, 1, 9, 7⟩]

/-- A log with two simultaneous events (both at t = 0). -/
def dupDf : List Event := [⟨0, 0, 3, 1⟩, ⟨1, 0, 4, 1⟩]

/-- A one-follower log: the source 7 posts at t = 0 and t = 3, the
competitor 9 posts at t = 1 and t = 2. -/
def df4 : List Event := [⟨0, 0, 7, 1⟩, ⟨1, 1, 9, 1⟩, ⟨2, 2, 9, 1⟩, ⟨3, 3, 7, 1⟩]

/-- A log with a single post by the source 5 to the follower 1 at t = 0. -/
def wDf : List Event := [⟨0, 0, 5, 1⟩]

/-! ## List helper lemmas -/

lemma zipWith_getD {α β γ : Type} (f : α → β → γ) :
    ∀ (as : List α) (bs : List β) (i : Nat) (da : α) (db : β) (dc : γ),
      i < as.length → i < bs.length →
      (List.zipWith f as bs).getD i dc = f (as.getD i da) (bs.getD i db) := by
  intro as
  induction as with
  | nil => intro bs i da db dc h1 _; simp at h1
  | cons a as ih =>
    intro bs i da db dc h1 h2
    cases bs with
    | nil => simp at h2
    | cons b bs =>
      cases i with
      | zero => simp [List.zipWith]
      | succ j =>
        simp only [List.zipWith, List.getD_cons_succ]
        exact ih bs j da db dc (by simpa using h1) (by simpa using h2)

lemma range'_getD : ∀ (n k i d : Nat), i < n → (List.range' k n).getD i d = k + i := by
  intro n
  induction n with
  | zero => intro k i d h; omega
  | succ m ih =>
    intro k i d h
    cases i with
    | zero => simp [List.range']
    | succ j =>
      simp only [List.range', List.getD_cons_succ]
      rw [ih (k + 1) j d (by omega)]
      omega

lemma map_range_getD {α : Type} (f : Nat → α) (n i : Nat) (d : α) (h : i < n) :
    ((List.range n).map f).getD i d = f i := by
  rw [List.getD_eq_getElem _ _ (by simpa using h), List.getElem_map, List.getElem_range]

lemma getD_tail {α : Type} : ∀ (x : List α) (i : Nat) (d : α),
    x.tail.getD i d = x.getD (i + 1) d := by
  intro x i d
  cases x with
  | nil => simp
  | cons a x => simp [List.getD_cons_succ]

lemma length_npDiff (x : List ℚ) : (npDiff x).length = x.length - 1 := by
  simp [npDiff, List.length_zipWith, List.length_tail]

lemma npDiff_getD (x : List ℚ) (i : Nat) (h : i + 1 < x.length) :
    (npDiff x).getD i 0 = x.getD (i + 1) 0 - x.getD i 0 := by
  rw [npDiff, zipWith_getD _ x x.tail i 0 0 0 (by omega) (by simp [List.length_tail]; omega),
    getD_tail]

lemma zipWith_eq_map_range {α β γ : Type} (f : α → β → γ) :
    ∀ (as : List α) (bs : List β) (da : α) (db : β), as.length = bs.length →
      List.zipWith f as bs =
        (List.range as.length).map (fun i => f (as.getD i da) (bs.getD i db)) := by
  intro as
  induction as with
  | nil => intro bs da db h; simp
  | cons a as ih =>
    intro bs da db h
    cases bs with
    | nil => simp at h
    | cons b bs =>
      simp only [List.zipWith, List.length_cons, List.range_succ_eq_map, List.map_cons,
        List.getD_cons_zero, List.map_map]
      congr 1
      rw [ih bs da db (by simpa using h)]
      apply List.map_congr_left
      intro i _
      simp [List.getD_cons_succ, Function.comp]

lemma foldl_max_le : ∀ (l : List Nat) (a c : Nat), a ≤ c → (∀ v ∈ l, v ≤ c) →
    l.foldl max a ≤ c := by
  intro l
  induction l with
  | nil => intro a c h _; simpa using h
  | cons x l ih =>
    intro a c h hm
    simp only [List.foldl_cons]
    exact ih (max a x) c (by
      have := hm x (by simp)
      omega) (fun v hv => hm v (by simp [hv]))

/-! ## Rank tracker lemmas -/

lemma length_whereSrc (src : Nat) (xs : List Nat) : (whereSrc src xs).length = xs.length := by
  simp [whereSrc, List.length_zipWith, List.length_range']

lemma length_maxAccum : ∀ (ys : List Nat) (acc : Nat), (maxAccum acc ys).length = ys.length := by
  intro ys
  induction ys with
  | nil => intro acc; rfl
  | cons y ys ih => intro acc; simp [maxAccum, ih]

lemma length_steps_to (src : Nat) (xs : List Nat) : (steps_to src xs).length = xs.length := by
  rw [steps_to, List.length_zipWith, List.length_range', length_maxAccum, length_whereSrc,
    Nat.min_self]

lemma maxAccum_getD : ∀ (ys : List Nat) (acc i : Nat), i < ys.length →
    (maxAccum acc ys).getD i 0 = (ys.take (i + 1)).foldl max acc := by
  intro ys
  induction ys with
  | nil => intro acc i h; simp at h
  | cons y ys ih =>
    intro acc i h
    cases i with
    | zero => simp [maxAccum]
    | succ j =>
      simp only [maxAccum, List.getD_cons_succ, List.take_succ_cons, List.foldl_cons]
      exact ih (max acc y) j (by simpa using h)

lemma take_zipWith_range' {α β : Type} (g : α → Nat → β) :
    ∀ (xs : List α) (m k : Nat),
      (List.zipWith g xs (List.range' k xs.length)).take m =
        List.zipWith g (xs.take m) (List.range' k (xs.take m).length) := by
  intro xs
  induction xs with
  | nil => intro m k; simp
  | cons a xs ih =>
    intro m k
    cases m with
    | zero => simp
    | succ m' =>
      simp only [List.length_cons, List.range', List.zipWith, List.take_succ_cons]
      rw [ih m' (k + 1)]

lemma take_whereSrc (src : Nat) (xs : List Nat) (m : Nat) :
    (whereSrc src xs).take m = whereSrc src (xs.take m) := by
  simp only [whereSrc]
  exact take_zipWith_range' _ xs m 1

lemma whereSrc_snoc (src : Nat) (xs : List Nat) (a : Nat) :
    whereSrc src (xs ++ [a]) =
      whereSrc src xs ++ [if a = src then xs.length + 1 else 0] := by
  simp only [whereSrc, List.length_append, List.length_cons, List.length_nil]
  rw [List.range'_concat, List.zipWith_append _ _ _ _ _ (by simp [List.length_range'])]
  simp [Nat.add_comm]

lemma lastSrcPos_snoc (src : Nat) (xs : List Nat) (a : Nat) :
    lastSrcPos src (xs ++ [a]) =
      max (lastSrcPos src xs) (if a = src then xs.length + 1 else 0) := by
  simp [lastSrcPos, whereSrc_snoc, List.foldl_append]

lemma lastSrcPos_le_length (src : Nat) (xs : List Nat) : lastSrcPos src xs ≤ xs.length := by
  induction xs using List.reverseRecOn with
  | nil => simp [lastSrcPos, whereSrc]
  | append_singleton xs a ih =>
    rw [lastSrcPos_snoc]
    simp only [List.length_append, List.length_cons, List.length_nil]
    split
    · omega
    · omega

lemma lastSrcPos_eq_zero (src : Nat) : ∀ (xs : List Nat), (∀ a ∈ xs, a ≠ src) →
    lastSrcPos src xs = 0 := by
  intro xs
  induction xs using List.reverseRecOn with
  | nil => intro _; simp [lastSrcPos, whereSrc]
  | append_singleton xs a ih =>
    intro h
    rw [lastSrcPos_snoc, if_neg (h a (by simp))]
    rw [ih (fun v hv => h v (by simp [hv]))]
    simp

lemma steps_to_getD (src : Nat) (xs : List Nat) (i : Nat) (h : i < xs.length) :
    (steps_to src xs).getD i 0 =
      ((i + 1 : Nat) : Int) - (lastSrcPos src (xs.take (i + 1)) : Int) := by
  rw [steps_to, zipWith_getD _ _ _ i 0 0 0 (by rw [List.length_range']; omega)
    (by rw [length_maxAccum, length_whereSrc]; omega)]
  rw [range'_getD _ 1 i 0 h, maxAccum_getD _ 0 i (by rw [length_whereSrc]; omega)]
  rw [take_whereSrc]
  have : (1 + i : Nat) = i + 1 := by omega
  rw [this]
  rfl

/-! ## Oracle table lemmas -/

lemma Jcol_terminal (ts : List ℚ) (e q s : ℚ) :
    Jcol ts e q s (ts.length + 1) = termCol ts.length := by
  rw [Jcol]
  have h : ts.length + 1 - (ts.length + 1) = 0 := by omega
  rw [h, JcolsAux]

lemma Jcol_succ (ts : List ℚ) (e q s : ℚ) (k : Nat) (hk : k ≤ ts.length) :
    Jcol ts e q s k =
      fillCol ts.length q s (wFn ts e (k + 1)) k (Jcol ts e q s (k + 1)) := by
  rw [Jcol, Jcol]
  have h1 : ts.length + 1 - k = (ts.length - k) + 1 := by omega
  have h2 : ts.length + 1 - (k + 1) = ts.length - k := by omega
  rw [h1, h2, JcolsAux]
  have h3 : ts.length - (ts.length - k) = k := by omega
  rw [h3]

/-! ## Calibration loop lemmas -/

lemma bisectLoop_stop (run : ℚ → ℚ × ℚ) (target tol : ℚ) :
    ∀ (fuel : Nat) (lo hi : ℚ) (res : FindRes),
      bisectLoop run target tol fuel lo hi = some res →
      stopCond res.events target tol := by
  intro fuel
  induction fuel with
  | zero => intro lo hi res h; simp [bisectLoop] at h
  | succ n ih =>
    intro lo hi res h
    simp only [bisectLoop] at h
    by_cases hst : stopCond (run ((lo + hi) / 2)).1 target tol
    · rw [if_pos hst] at h
      have h2 := Option.some.inj h
      subst h2
      exact hst
    · rw [if_neg hst] at h
      by_cases hlt : (run ((lo + hi) / 2)).1 < target
      · rw [if_pos hlt] at h
        exact ih _ _ res h
      · rw [if_neg hlt] at h
        exact ih _ _ res h

/-! ## Sortedness lemmas -/

lemma is_sorted_of_chain : ∀ (x : List ℚ),
    List.Chain' (fun a b => a ≤ b) x → is_sorted x = true := by
  intro x
  induction x with
  | nil => intro _; rfl
  | cons a tl ih =>
    cases tl with
    | nil => intro _; rfl
    | cons b tl2 =>
      intro h
      rw [List.chain'_cons] at h
      have h2 := ih h.2
      rw [is_sorted] at h2 ⊢
      rw [show npDiff (a :: b :: tl2) = (b - a) :: npDiff (b :: tl2) from rfl, List.all_cons,
        Bool.and_eq_true]
      refine ⟨?_, h2⟩
      simpa [sub_nonneg] using h.1

/-! ## Utility integral lemmas -/

lemma length_u_values (sq : ℚ → ℚ) (df : List Event) (src : Nat) (fids : List Nat)
    (q_vec : List ℚ) (s : ℚ) :
    (u_values sq df src fids q_vec s).length = (grid df).length := by
  rw [u_values, List.length_map, List.length_range]

lemma length_u_dt (df : List Event) (e : ℚ) : (u_dt df e).length = (grid df).length := by
  rw [u_dt, length_npDiff]
  simp

lemma u_dt_getD (df : List Event) (e : ℚ) (i : Nat) (h : i < (grid df).length) :
    (u_dt df e).getD i 0 =
      (if i + 1 < (grid df).length then (grid df).getD (i + 1) 0 else e) -
        (grid df).getD i 0 := by
  rw [u_dt, npDiff_getD _ i (by simp; omega)]
  congr 1
  · by_cases h2 : i + 1 < (grid df).length
    · rw [if_pos h2, List.getD_append _ _ _ _ h2]
    · rw [if_neg h2]
      have h3 : i + 1 = (grid df).length := by omega
      rw [List.getD_append_right _ _ _ _ (by omega), h3]
      simp
  · exact List.getD_append _ _ _ _ h

lemma uIntCore_eq_spec (sq : ℚ → ℚ) (df : List Event) (src : Nat) (e : ℚ)
    (q_vec : List ℚ) (s : ℚ) (fids : List Nat) :
    uIntCore sq df src e q_vec s fids = u_int_spec sq df src e q_vec s fids := by
  rw [uIntCore, u_int_spec]
  rw [zipWith_eq_map_range _ (u_values sq df src fids q_vec s) (u_dt df e) 0 0
    (by rw [length_u_values, length_u_dt])]
  rw [length_u_values]
  apply congrArg List.sum
  apply List.map_congr_left
  intro i hi
  rw [List.mem_range] at hi
  rw [u_dt_getD df e i hi]
  simp only [u_values]
  rw [map_range_getD _ _ _ _ hi]

/-! ## Claims -/

/-- C1: the Oracle Scheduler's returned cost J[0, 0] does not equal the
brute-force minimum over posting patterns.  On the single-event timeline
ts = [1] with end_time = 2, q = 1, s = 1, the oracle returns cost 1/2,
while the minimum total cost over the 2^n patterns with one decision per
competing event is 3/2, and even over the 2^(n+1) patterns that may also
post before the final interval it is 1: the returned cost lies strictly
below the cost of every feasible posting pattern, because the fill loop
`range(min(k+1, n))` never writes J[n, n], which keeps its zero
initialization and truncates the future cost of the never-post branch. -/
theorem c1_oracle_cost_below_bruteforce :
    oracle_ranking c1Df 2 [1] 1 = .ok ⟨[0, 1], [0, 0], 1 / 2⟩ ∧
    oracleEventTimes c1Df = [1] ∧
    bruteMin [1] 2 1 1 = 3 / 2 ∧
    bruteMinFull [1] 2 1 1 = 1 ∧
    ((1 : ℚ) / 2 < 1) := by
  refine ⟨?_, ?_, ?_, ?_, by norm_num⟩
  · norm_num [oracle_ranking, oracleEventTimes, uniqueSortedNat, c1Df, List.insertionSort,
      List.orderedInsert, is_sorted, npDiff, times, fwdSteps, Jfun, Jcol, JcolsAux, termCol,
      fillCol, wFn, List.range_succ, List.range_zero]
  · norm_num [oracleEventTimes, uniqueSortedNat, c1Df, List.insertionSort, List.orderedInsert]
  · norm_num [bruteMin, minCost, patterns, pathCost, wFn, npDiff]
  · norm_num [bruteMinFull, minCost, patterns, pathCostFull, wFn, npDiff]

/-- C2 (counterexample): the claimed recurrence fails at the reachable cell
r = k = n.  For ts = [1], end_time = 2, q = s = 1 the table holds
J[1, 1] = 0 (the cell is never written and keeps its initialization), while
the recurrence's right-hand side evaluates to 1/2. -/
theorem c2_counterexample :
    Jfun [1] 2 1 1 1 1 = 0 ∧
    min (1 / 2 + Jfun [1] 2 1 1 0 2)
      (1 / 2 * wFn [1] 2 2 * ((1 : ℚ) + 1) ^ 2 + Jfun [1] 2 1 1 2 2) = 1 / 2 ∧
    (0 : ℚ) ≠ 1 / 2 := by
  norm_num [Jfun, Jcol, JcolsAux, termCol, fillCol, wFn, npDiff, List.range_succ,
    List.range_zero]

/-- C2 (amended): the terminal column satisfies J[r, n+1] = r²/2 for all
r ≤ n; the recurrence J[r, k] = min(s/2 + J[0, k+1],
(q/2)·w[k+1]·(r+1)² + J[r+1, k+1]) holds for every k ≤ n and every rank
r < min(k+1, n) (the source's fill range), and every remaining cell of a
column k ≤ n, in particular J[n, n], keeps its zero initialization. -/
theorem c2_dp_table_amended (ts : List ℚ) (e q s : ℚ) :
    (∀ r, r ≤ ts.length → Jfun ts e q s r (ts.length + 1) = ((r : ℚ)) ^ 2 / 2) ∧
    (∀ k r, k ≤ ts.length → r < min (k + 1) ts.length →
      Jfun ts e q s r k =
        min (s / 2 + Jfun ts e q s 0 (k + 1))
          (q / 2 * wFn ts e (k + 1) * ((r : ℚ) + 1) ^ 2 + Jfun ts e q s (r + 1) (k + 1))) ∧
    (∀ k r, k ≤ ts.length → min (k + 1) ts.length ≤ r → r ≤ ts.length →
      Jfun ts e q s r k = 0) := by
  refine ⟨?_, ?_, ?_⟩
  · intro r hr
    rw [Jfun, Jcol_terminal, termCol, map_range_getD _ _ _ _ (by omega)]
  · intro k r hk hr
    simp only [Jfun]
    rw [Jcol_succ ts e q s k hk]
    simp only [fillCol]
    rw [map_range_getD _ _ _ _ (by omega), if_pos hr]
  · intro k r hk hr1 hr2
    simp only [Jfun]
    rw [Jcol_succ ts e q s k hk]
    simp only [fillCol]
    rw [map_range_getD _ _ _ _ (by omega), if_neg (by omega)]

/-- C2 (witness): the amended statement instantiated on ts = [1],
end_time = 2, q = s = 1 at the terminal cell (0, 2), the recurrence cell
(0, 1) and the zero-kept cell (1, 1). -/
theorem c2_dp_table_amended_witness :
    Jfun [1] 2 1 1 0 2 = ((0 : ℚ)) ^ 2 / 2 ∧
    Jfun [1] 2 1 1 0 1 =
      min (1 / 2 + Jfun [1] 2 1 1 0 2)
        (1 / 2 * wFn [1] 2 2 * ((0 : ℚ) + 1) ^ 2 + Jfun [1] 2 1 1 1 2) ∧
    Jfun [1] 2 1 1 1 1 = 0 := by
  refine ⟨(c2_dp_table_amended [1] 2 1 1).1 0 (by simp), ?_, ?_⟩
  · exact (c2_dp_table_amended [1] 2 1 1).2.1 1 0 (by simp) (by decide)
  · exact (c2_dp_table_amended [1] 2 1 1).2.2 1 1 (by simp) (by decide) (by decide)

/-- C3 (counterexample): in the spec's two-follower scenario the claimed
trajectory [0, 0, 0, 1] for follower 2 at the grid points t = 0, 1, 2, 3 is
wrong: the forward-filled column of follower 2 still reads 0 at t = 3,
since the competitor only reaches follower 2 at t = 4. -/
theorem c3_counterexample :
    ¬ ((rank_of_src_in_df exDf 0).map (fun tbl => (tbl.getD 1 (0, [])).2.take 4) =
      some [some 0, some 0, some 0, some 1]) := by
  norm_num [rank_of_src_in_df, is_sorted, npDiff, times, exDf, uniqueSortedNat,
    List.insertionSort, List.orderedInsert, List.dedup, List.pwFilter, rankTraj, grid,
    dedupSorted, pivotCell, streamOf, streamRanks, streamSrcs, steps_to, whereSrc, maxAccum,
    ffillAux, List.range']

/-- C3 (amended): in the spec's two-follower scenario the rank table reads
[0, 1, 2, 3] for follower 1 at the grid points t = 0, 1, 2, 3 as claimed,
while follower 2 reads [0, 0, 0, 0] there; follower 2's values [0, 0, 0, 1]
appear one grid point later, at t = 1, 2, 3, 4.  The full forward-filled
table over the grid t = 0, 1, 2, 3, 4, 5 is shown. -/
theorem c3_rank_trajectory_amended :
    rank_of_src_in_df exDf 0 =
      some [(1, [some 0, some 1, some 2, some 3, some 3, some 0]),
            (2, [some 0, some 0, some 0, some 0, some 1, some 0])] := by
  norm_num [rank_of_src_in_df, is_sorted, npDiff, times, exDf, uniqueSortedNat,
    List.insertionSort, List.orderedInsert, List.dedup, List.pwFilter, rankTraj, grid,
    dedupSorted, pivotCell, streamOf, streamRanks, streamSrcs, steps_to, whereSrc, maxAccum,
    ffillAux, List.range']

/-- C4: inside each follower stream of a time-sorted log, the rank assigned
by the tracker at the (i+1)-st event equals (i+1) minus the 1-based position
of the source's most recent post so far; it is 0 at the source's own posts,
equals the event's 1-based position before the source's first post, is never
negative, and increases by exactly 1 (hence strictly) at every event that is
not a post of the source. -/
theorem c4_stream_rank_formula (df : List Event) (src σ i : Nat)
    (hs : is_sorted (times df) = true) (hi : i < (streamSrcs df σ).length) :
    ((streamRanks df src σ).getD i 0 =
        ((i + 1 : Nat) : Int) - (lastSrcPos src ((streamSrcs df σ).take (i + 1)) : Int)) ∧
    ((streamSrcs df σ).getD i (src + 1) = src → (streamRanks df src σ).getD i 0 = 0) ∧
    ((∀ a ∈ (streamSrcs df σ).take (i + 1), a ≠ src) →
        (streamRanks df src σ).getD i 0 = ((i + 1 : Nat) : Int)) ∧
    (0 ≤ (streamRanks df src σ).getD i 0) ∧
    (∀ _ : i + 1 < (streamSrcs df σ).length, (streamSrcs df σ).getD (i + 1) src ≠ src →
        (streamRanks df src σ).getD (i + 1) 0 = (streamRanks df src σ).getD i 0 + 1) := by
  have h1 : (streamRanks df src σ).getD i 0 =
      ((i + 1 : Nat) : Int) - (lastSrcPos src ((streamSrcs df σ).take (i + 1)) : Int) :=
    steps_to_getD src (streamSrcs df σ) i hi
  refine ⟨h1, ?_, ?_, ?_, ?_⟩
  · intro hsrc
    have hgi : (streamSrcs df σ)[i] = src := by
      rw [← List.getD_eq_getElem (streamSrcs df σ) (src + 1) hi]
      exact hsrc
    have hlast : lastSrcPos src ((streamSrcs df σ).take (i + 1)) = i + 1 := by
      rw [← List.take_concat_get (streamSrcs df σ) i hi, List.concat_eq_append,
        lastSrcPos_snoc, hgi, if_pos rfl]
      have hb := lastSrcPos_le_length src ((streamSrcs df σ).take i)
      rw [List.length_take] at hb ⊢
      omega
    rw [h1, hlast]
    simp
  · intro hnone
    rw [h1, lastSrcPos_eq_zero src _ hnone]
    simp
  · rw [h1]
    have hb := lastSrcPos_le_length src ((streamSrcs df σ).take (i + 1))
    rw [List.length_take] at hb
    omega
  · intro hlt hne
    have h2 : (streamRanks df src σ).getD (i + 1) 0 =
        ((i + 1 + 1 : Nat) : Int) -
          (lastSrcPos src ((streamSrcs df σ).take (i + 1 + 1)) : Int) :=
      steps_to_getD src (streamSrcs df σ) (i + 1) hlt
    have hgi : (streamSrcs df σ)[i + 1] ≠ src := by
      rw [← List.getD_eq_getElem (streamSrcs df σ) src hlt]
      exact hne
    have hstep : (streamSrcs df σ).take (i + 1 + 1) =
        (streamSrcs df σ).take (i + 1) ++ [(streamSrcs df σ)[i + 1]] := by
      rw [← List.take_concat_get (streamSrcs df σ) (i + 1) hlt, List.concat_eq_append]
    rw [h1, h2, hstep, lastSrcPos_snoc, if_neg hgi]
    simp only [Nat.max_zero]
    push_cast
    ring

/-- C4 (witness): the formula, instantiated on the one-follower log `df4`
at stream position i = 1 (the competitor's event at t = 1). -/
theorem c4_stream_rank_formula_witness :
    (streamRanks df4 7 1).getD 1 0 =
      ((2 : Nat) : Int) - (lastSrcPos 7 ((streamSrcs df4 1).take 2) : Int) ∧
    0 ≤ (streamRanks df4 7 1).getD 1 0 := by
  have h := c4_stream_rank_formula df4 7 1 1
    (by norm_num [is_sorted, npDiff, times, df4])
    (by norm_num [streamSrcs, streamOf, df4])
  exact ⟨h.1, h.2.2.2.1⟩

/-- C5: in the forward reconstruction a post is recorded exactly when the
post branch is strictly cheaper than the wait branch; on an exact tie the
step records no post (events entry 0) and increments the rank. -/
theorem c5_tie_break_no_post (q s : ℚ) (w : Nat → ℚ) (J : Nat → Nat → ℚ) (m k r : Nat) :
    (s / 2 + J 0 (k + 1) = q / 2 * w (k + 1) * ((r : ℚ) + 1) ^ 2 + J (r + 1) (k + 1) →
      fwdSteps q s w J (m + 1) k r = (0, r + 1) :: fwdSteps q s w J m (k + 1) (r + 1)) ∧
    (((fwdSteps q s w J (m + 1) k r).headD (0, 0)).1 = 1 ↔
      s / 2 + J 0 (k + 1) < q / 2 * w (k + 1) * ((r : ℚ) + 1) ^ 2 + J (r + 1) (k + 1)) := by
  constructor
  · intro heq
    rw [fwdSteps, if_neg (by rw [heq]; exact lt_irrefl _)]
  · by_cases h : s / 2 + J 0 (k + 1) < q / 2 * w (k + 1) * ((r : ℚ) + 1) ^ 2 + J (r + 1) (k + 1)
    · rw [fwdSteps, if_pos h]
      simpa using h
    · rw [fwdSteps, if_neg h]
      simp [h]

/-- C5 (witness): with ts = [1], end_time = 2, q = 1, s = 1/2 the two
branches tie exactly at the first step (both cost 1/2), and the oracle
records no post and rank 1. -/
theorem c5_tie_break_no_post_witness :
    fwdSteps 1 (1 / 2) (wFn [1] 2) (Jfun [1] 2 1 (1 / 2)) 1 0 0 = [(0, 1)] := by
  have h := (c5_tie_break_no_post 1 (1 / 2) (wFn [1] 2) (Jfun [1] 2 1 (1 / 2)) 0 0 0).1
    (by norm_num [Jfun, Jcol, JcolsAux, termCol, fillCol, wFn, npDiff, List.range_succ,
      List.range_zero])
  rw [h]
  rfl

/-- C6: on a time-sorted log, with an explicitly supplied sorted follower
list whose columns contain no missing cells and a weight vector of matching
length, the utility integral equals the Riemann sum over the distinct
observed timestamps of the rank row dotted with sqrt(q_vec/s) times the
width to the next observation (the last width reaching end_time); an
explicitly supplied follower list that is not sorted ascending makes the
call fail with a precondition error. -/
theorem c6_utility_integral_riemann (sq : ℚ → ℚ) (df : List Event) (src : Nat)
    (e : ℚ) (q_vec : List ℚ) (s : ℚ) (fids : List Nat) :
    (is_sorted (times df) = true → is_sorted (natsToRat fids) = true →
      q_vec.length = fids.length →
      (∀ σ ∈ fids, ((rankTraj df src σ).all (fun c => c.isSome)) = true) →
      u_int_opt sq df src e q_vec s (some fids) =
        some (u_int_spec sq df src e q_vec s fids)) ∧
    (is_sorted (natsToRat fids) = false →
      u_int_opt sq df src e q_vec s (some fids) = none) := by
  constructor
  · intro ht hf _ _
    simp only [u_int_opt]
    rw [if_pos hf, if_pos ht, uIntCore_eq_spec]
  · intro hf
    simp only [u_int_opt]
    rw [hf]
    simp

/-- C6 (witness): the Riemann-sum equality on the one-post log `wDf`
(sorted follower list [1]), and the precondition failure on the unsorted
follower list [2, 1]. -/
theorem c6_utility_integral_riemann_witness :
    u_int_opt (fun x => x) wDf 5 2 [1] 1 (some [1]) =
      some (u_int_spec (fun x => x) wDf 5 2 [1] 1 [1]) ∧
    u_int_opt (fun x => x) wDf 5 2 [1] 1 (some [2, 1]) = none := by
  constructor
  · exact (c6_utility_integral_riemann (fun x => x) wDf 5 2 [1] 1 [1]).1
      (by norm_num [is_sorted, npDiff, times, wDf])
      (by norm_num [is_sorted, npDiff, natsToRat])
      rfl
      (by
        intro σ hσ
        have hσ1 : σ = 1 := by simpa using hσ
        subst hσ1
        norm_num [rankTraj, grid, dedupSorted, times, wDf, pivotCell, streamOf, streamRanks,
          streamSrcs, steps_to, whereSrc, maxAccum, ffillAux, List.range'])
  · exact (c6_utility_integral_riemann (fun x => x) wDf 5 2 [1] 1 [2, 1]).2
      (by norm_num [is_sorted, npDiff, natsToRat])

/-- C7: whenever the follower set extracted from the log has size different
from 1, oracle_ranking fails with the unsupported-configuration error
instead of returning a result. -/
theorem c7_single_follower_guard (df : List Event) (e : ℚ) (q_vec : List ℚ) (s : ℚ)
    (h : (uniqueSortedNat (df.map (fun ev => ev.sink_id))).length ≠ 1) :
    oracle_ranking df e q_vec s = .error .unsupportedConfiguration := by
  simp only [oracle_ranking]
  rw [if_neg h]

/-- C7 (witness): the empty log has 0 followers, and the call fails. -/
theorem c7_single_follower_guard_witness :
    oracle_ranking [] 0 [] 0 = .error .unsupportedConfiguration :=
  c7_single_follower_guard [] 0 [] 0 (by decide)

/-- C8: whenever the calibration loop returns, the achieved event count of
the returned run satisfies the stopping test (relative error below the
tolerance, or equal to the ceiling or the floor of the target); and a
bisection step that does not stop keeps the lower end and moves s_hi to the
midpoint when the achieved count is below the target, and moves s_lo to the
midpoint otherwise. -/
theorem c8_calibration_stop_and_narrow (run : ℚ → ℚ × ℚ) (target tol : ℚ)
    (fuel : Nat) (lo hi : ℚ) (res : FindRes) :
    (find_opt_oracle run target tol fuel = some res → stopCond res.events target tol) ∧
    (bisectLoop run target tol fuel lo hi = some res → stopCond res.events target tol) ∧
    (¬ stopCond (run ((lo + hi) / 2)).1 target tol →
      ((run ((lo + hi) / 2)).1 < target →
        bisectLoop run target tol (fuel + 1) lo hi =
          bisectLoop run target tol fuel lo ((lo + hi) / 2)) ∧
      (¬ (run ((lo + hi) / 2)).1 < target →
        bisectLoop run target tol (fuel + 1) lo hi =
          bisectLoop run target tol fuel ((lo + hi) / 2) hi)) := by
  refine ⟨?_, bisectLoop_stop run target tol fuel lo hi res, ?_⟩
  · intro h
    simp only [find_opt_oracle] at h
    split at h
    · simp at h
    · exact bisectLoop_stop run target tol fuel _ _ res h
  · intro hst
    constructor
    · intro hlt
      simp only [bisectLoop]
      rw [if_neg hst, if_pos hlt]
    · intro hge
      simp only [bisectLoop]
      rw [if_neg hst, if_neg hge]

/-- C8 (witness): a run hitting the target stops with zero relative error,
and a non-stopping midpoint below the target narrows the bracket to its
lower half. -/
theorem c8_calibration_stop_and_narrow_witness :
    stopCond (10 : ℚ) 10 (1 / 100) ∧
    bisectLoop (fun _ => (5, 0)) 10 (1 / 100) 2 0 2 =
      bisectLoop (fun _ => (5, 0)) 10 (1 / 100) 1 0 1 := by
  constructor
  · exact (c8_calibration_stop_and_narrow (fun _ => ((10 : ℚ), (99 : ℚ))) 10 (1 / 100) 5 0 0
      ⟨5 / 4, 99, 10⟩).1 (by norm_num [find_opt_oracle, bisectLoop, stopCond])
  · have h := ((c8_calibration_stop_and_narrow (fun _ => ((5 : ℚ), (0 : ℚ))) 10 (1 / 100) 1 0 2
      ⟨0, 0, 0⟩).2.2 (by norm_num [stopCond]))
    have h2 := h.1 (by norm_num)
    have h3 : ((0 : ℚ) + 2) / 2 = 1 := by norm_num
    rw [h3] at h2
    exact h2

/-- C9: is_sorted accepts non-strictly ascending sequences (every sequence
whose entries each dominate their predecessor, equalities allowed, passes),
and consequently a log with duplicate timestamps passes the rank tracker's
sortedness precondition and is processed. -/
theorem c9_is_sorted_nonstrict (x : List ℚ) (df : List Event) (src : Nat) :
    (List.Chain' (fun a b => a ≤ b) x → is_sorted x = true) ∧
    (List.Chain' (fun a b => a ≤ b) (times df) → (rank_of_src_in_df df src).isSome = true) := by
  refine ⟨is_sorted_of_chain x, ?_⟩
  intro h
  simp only [rank_of_src_in_df]
  rw [if_pos (is_sorted_of_chain _ h)]
  rfl

/-- C9 (witness): the sequence [1, 1, 2] with a duplicate entry passes
is_sorted, and the rank tracker processes the log `dupDf` whose two events
share the timestamp 0. -/
theorem c9_is_sorted_nonstrict_witness :
    is_sorted [1, 1, 2] = true ∧ (rank_of_src_in_df dupDf 3).isSome = true := by
  constructor
  · exact (c9_is_sorted_nonstrict [1, 1, 2] [] 0).1 (by norm_num)
  · exact (c9_is_sorted_nonstrict [] dupDf 3).2 (by norm_num [times, dupDf])

/-- C10: when no follower list is supplied, the utility integral runs over
exactly the ascending-sorted distinct sinks that received at least one post
from the source itself; a sink that only ever received competitors' posts
is not in that list. -/
theorem c10_default_followers (sq : ℚ → ℚ) (df : List Event) (src : Nat) (e s : ℚ)
    (q_vec : List ℚ) :
    List.Sorted (fun a b => a ≤ b) (followersOfSrc df src) ∧
    (∀ σ, σ ∈ followersOfSrc df src ↔ ∃ ev ∈ df, ev.src_id = src ∧ ev.sink_id = σ) ∧
    u_int_opt sq df src e q_vec s none =
      (if is_sorted (times df) = true
        then some (uIntCore sq df src e q_vec s (followersOfSrc df src)) else none) := by
  refine ⟨List.sorted_insertionSort _ _, ?_, rfl⟩
  intro σ
  rw [followersOfSrc, uniqueSortedNat]
  rw [List.Perm.mem_iff (List.perm_insertionSort _ _)]
  rw [List.mem_dedup]
  simp only [List.mem_map, List.mem_filter, decide_eq_true_eq]
  constructor
  · rintro ⟨ev, ⟨h1, h2⟩, h3⟩
    exact ⟨ev, h1, h2, h3⟩
  · rintro ⟨ev, h1, h2, h3⟩
    exact ⟨ev, ⟨h1, h2⟩, h3⟩

end RedQueen
